import Mathlib

set_option autoImplicit false

namespace VnKanji

/-- JSON-like values as the two scripts inspect them: the Yomichan dictionary
file nests only strings and arrays in the positions the loader reads.
(Other JSON shapes would crash the script on `.strip()` and are modelled by
the `Except` error path of the loader.) -/
inductive JValue where
  | jstr (s : String)
  | jarr (elems : List JValue)

mutual

/-- Boolean structural equality on `JValue` (spelled out because automatic
derivation does not handle the nested `List`). -/
def JValue.beq : JValue → JValue → Bool
  | .jstr s, .jstr t => s == t
  | .jarr xs, .jarr ys => JValue.beqList xs ys
  | _, _ => false

/-- Elementwise `JValue.beq` on lists. -/
def JValue.beqList : List JValue → List JValue → Bool
  | [], [] => true
  | x :: xs, y :: ys => JValue.beq x y && JValue.beqList xs ys
  | _, _ => false

end

mutual

theorem JValue.beq_iff_eq : ∀ a b : JValue, JValue.beq a b = true ↔ a = b
  | .jstr _, .jstr _ => by simp [JValue.beq]
  | .jstr _, .jarr _ => by simp [JValue.beq]
  | .jarr _, .jstr _ => by simp [JValue.beq]
  | .jarr xs, .jarr ys => by
      simp only [JValue.beq, JValue.beqList_iff_eq xs ys, JValue.jarr.injEq]

theorem JValue.beqList_iff_eq :
    ∀ xs ys : List JValue, JValue.beqList xs ys = true ↔ xs = ys
  | [], [] => by simp [JValue.beqList]
  | [], _ :: _ => by simp [JValue.beqList]
  | _ :: _, [] => by simp [JValue.beqList]
  | x :: xs, y :: ys => by
      simp only [JValue.beqList, Bool.and_eq_true, JValue.beq_iff_eq x y,
        JValue.beqList_iff_eq xs ys, List.cons.injEq]

end

instance : DecidableEq JValue := fun a b =>
  decidable_of_iff _ (JValue.beq_iff_eq a b)

/-- Python truthiness for the values above: a string is truthy iff non-empty,
a list is truthy iff non-empty. -/
def JValue.truthy : JValue → Bool
  | .jstr s => !s.isEmpty
  | .jarr l => !l.isEmpty

/-- Leading- and trailing-whitespace removal on the character list of a
string, mirroring Python `str.strip()` (whitespace class restricted to
`Char.isWhitespace`; the readings and meanings at issue use ASCII spacing). -/
def stripChars (l : List Char) : List Char :=
  ((l.dropWhile Char.isWhitespace).reverse.dropWhile Char.isWhitespace).reverse

/-- Python `s.strip()` for a string `s`. -/
def pyStrip (s : String) : String := ⟨stripChars s.data⟩

/-- `raw_reading.strip()` as the loader calls it: only a string has `.strip`;
any other (truthy) value raises, which the loader's blanket handler turns
into a fatal exit, modelled as the error of an `Except`. -/
def stripValue : JValue → Except Unit String
  | .jstr s => .ok (pyStrip s)
  | .jarr _ => .error ()

/-- First-match lookup in an association list, the reading of a Python
`dict` (whose keys are kept unique by `insertAssoc` below). -/
def lookupAssoc {α β : Type} [DecidableEq α] : List (α × β) → α → Option β
  | [], _ => none
  | (k', v) :: kvs, k => if k' = k then some v else lookupAssoc kvs k

/-- Key assignment `d[k] = v` on a Python `dict`: overwrite the existing
entry for `k` in place, or append a new one. -/
def insertAssoc {α β : Type} [DecidableEq α] : List (α × β) → α → β → List (α × β)
  | [], k, v => [(k, v)]
  | (k', v') :: kvs, k, v =>
      if k' = k then (k, v) :: kvs else (k', v') :: insertAssoc kvs k v

/-- The preprocessed dictionary: character (`entry[0]`) to list of readings. -/
abbrev ReadingMap := List (JValue × List String)

/-- The inner loop of `load_dictionary` over `definitions = entry[1]`:
a definition contributes its first element, stripped, when it is a
non-empty list whose first element is truthy.  Iterating a string yields
its one-character strings, none of which is a list, so a string
`definitions` contributes nothing; stripping a truthy non-string raises
(modelled by the `Except` error). -/
def definitionsLoop (defs : List JValue) (readings : List String) :
    Except Unit (List String) :=
  match defs with
  | [] => .ok readings
  | definition :: rest =>
      match definition with
      | .jarr (raw_reading :: _) =>
          if raw_reading.truthy then
            match stripValue raw_reading with
            | .ok r => definitionsLoop rest (readings ++ [r])
            | .error e => .error e
          else definitionsLoop rest readings
      | _ => definitionsLoop rest readings

/-- The candidate readings collected from `definitions = entry[1]`. -/
def definitionsReadings : JValue → Except Unit (List String)
  | .jstr _ => .ok []
  | .jarr defs => definitionsLoop defs []

/-- One step of `load_dictionary`'s main loop: entries shorter than 2 are
skipped; otherwise the deduplicated readings (`list(set(readings))`, whose
order Python leaves unspecified; `List.dedup` picks a representative) are
stored under `entry[0]` when non-empty. -/
def processEntry (dictionary : ReadingMap) (entry : List JValue) :
    Except Unit ReadingMap :=
  match entry with
  | character :: definitions :: _ =>
      match definitionsReadings definitions with
      | .ok readings =>
          let unique_readings := readings.dedup
          if unique_readings.isEmpty then .ok dictionary
          else .ok (insertAssoc dictionary character unique_readings)
      | .error e => .error e
  | _ => .ok dictionary

/-- The main loop of `load_dictionary` over the entries. -/
def loadLoop (dictionary : ReadingMap) : List (List JValue) → Except Unit ReadingMap
  | [] => .ok dictionary
  | entry :: entries =>
      match processEntry dictionary entry with
      | .ok d => loadLoop d entries
      | .error e => .error e

/-- `load_dictionary`, as a function of the parsed Yomichan data (a list of
entries, each a list).  `.error ()` models the fatal `sys.exit(1)` path
taken when an exception escapes the preprocessing loop. -/
def load_dictionary (yomichan_data : List (List JValue)) :
    Except Unit ReadingMap :=
  loadLoop [] yomichan_data

/-- Code-point lexicographic order on character lists: how Python compares
strings. -/
def lexLe : List Char → List Char → Bool
  | [], _ => true
  | _ :: _, [] => false
  | c :: cs, d :: ds => if c < d then true else if d < c then false else lexLe cs ds

/-- Python `s <= t` on strings. -/
def strLe (s t : String) : Bool := lexLe s.data t.data

/-- Python `s.upper()`, character by character (`Char.toUpper`; the readings
at issue are upper-case or ASCII already). -/
def upperString (s : String) : String := ⟨s.data.map Char.toUpper⟩

/-- Python `s.lower()`, character by character. -/
def lowerString (s : String) : String := ⟨s.data.map Char.toLower⟩

/-- Insertion of a string into an ascending list, by code-point order. -/
def insertSorted (s : String) : List String → List String
  | [] => [s]
  | t :: ts => if strLe s t then s :: t :: ts else t :: insertSorted s ts

/-- Python `sorted` on a list of strings: the ascending rearrangement under
code-point lexicographic order (insertion sort; on the duplicate-free lists
stored in the map the result is the unique sorted rearrangement). -/
def sortStrings : List String → List String
  | [] => []
  | s :: ss => insertSorted s (sortStrings ss)

/-- `get_han_viet_reading`: `dictionary.get(character)`, and when the result
is truthy (a non-empty list), the readings sorted (on their original form)
and then upper-cased, joined by `", "`; otherwise `None`. -/
def get_han_viet_reading (character : JValue) (dictionary : ReadingMap) :
    Option String :=
  match lookupAssoc dictionary character with
  | some readings =>
      if readings.isEmpty then none
      else some (String.intercalate ", " ((sortStrings readings).map upperString))
  | none => none

/-- The formatting rule exactly as the specification words it: upper-case
each reading, then sort ascending on the upper-cased form, then join.
Stated only for comparison with `get_han_viet_reading`, which sorts
before upper-casing. -/
def specLookupFormat (readings : List String) : String :=
  String.intercalate ", " (sortStrings (readings.map upperString))

/-- A record of the kanji dataset, as the enricher reads it:
`character = kanji_entry.get('character')` (an arbitrary JSON value or
missing), `meaning = kanji_entry.get('meaning')` (a string, with `none`
modelling both a missing key and JSON `null`, which the script treats
identically), and the remaining fields, which the script never touches. -/
structure KanjiRecord where
  character : Option JValue
  meaning : Option String
  rest : List (String × JValue)
  deriving DecidableEq

/-- The body of the enricher's per-record loop: returns the (possibly
updated) record together with the increments of `modified_count` and
`skipped_count`. -/
def enrichRecord (dictionary : ReadingMap) (r : KanjiRecord) :
    KanjiRecord × Bool × Bool :=
  match r.character, r.meaning with
  | some character, some current_meaning =>
      if character.truthy then
        match get_han_viet_reading character dictionary with
        | some sv_meaning =>
            if sv_meaning.isEmpty then (r, false, true)
            else
              let new_meaning :=
                if (pyStrip current_meaning).isEmpty then sv_meaning
                else sv_meaning ++ ", " ++ current_meaning
              ({ r with meaning := some new_meaning }, true, false)
        | none => (r, false, true)
      else (r, false, false)
  | _, _ => (r, false, false)

/-- The enricher's loop over `kanji_list`: the processed records in order,
the final `modified_count`, and the final `skipped_count`. -/
def process_kanji_list (dictionary : ReadingMap) :
    List KanjiRecord → List KanjiRecord × Nat × Nat
  | [] => ([], 0, 0)
  | r :: rs =>
      let step := enrichRecord dictionary r
      let tl := process_kanji_list dictionary rs
      (step.1 :: tl.1,
       (if step.2.1 then 1 else 0) + tl.2.1,
       (if step.2.2 then 1 else 0) + tl.2.2)

/-- The input document: the `kanji` array (`none` when the key is missing,
in which case `data.get('kanji', [])` substitutes `[]`) and every other
top-level field, which the script never touches. -/
structure KanjiDoc where
  kanji : Option (List KanjiRecord)
  rest : List (String × JValue)
  deriving DecidableEq

/-- The document-level transform of `process_kanji_file`: process the
`kanji` list (defaulting to `[]`) and reassign `data['kanji']` before
writing, so the output document always carries the key. -/
def process_doc (dictionary : ReadingMap) (data : KanjiDoc) :
    KanjiDoc × Nat × Nat :=
  let kanji_list := data.kanji.getD []
  let out := process_kanji_list dictionary kanji_list
  ({ data with kanji := some out.1 }, out.2.1, out.2.2)

/-- How a run of the script ends: `fatalExit` models `sys.exit` with the
given status, `finished` a normal return carrying the written document and
counters, or `none` when the run returned without writing any output. -/
inductive RunOutcome where
  | fatalExit (code : Nat)
  | finished (written : Option (KanjiDoc × Nat × Nat))
  deriving DecidableEq

/-- The control flow of `process_kanji_file`, as a function of the two file
reads: `dictFile = none` models a missing or unparseable dictionary file
(the `FileNotFoundError` / blanket handlers call `sys.exit(1)`), and
`kanjiFile = none` a failing read of the kanji input (the handler prints
and returns, writing nothing). -/
def process_kanji_file (dictFile : Option (List (List JValue)))
    (kanjiFile : Option KanjiDoc) : RunOutcome :=
  match dictFile with
  | none => .fatalExit 1
  | some ydata =>
      match load_dictionary ydata with
      | .error _ => .fatalExit 1
      | .ok dict =>
          match kanjiFile with
          | none => .finished none
          | some data => .finished (some (process_doc dict data))

/-- A record as `split-kanji.py` reads it: `category = kanji.get('category',
'')` (a string; other fields untouched). -/
structure SplitRecord where
  category : Option String
  rest : List (String × JValue)
  deriving DecidableEq

/-- The five group keys of `jlpt_groups`, in the script's order. -/
def jlpt_keys : List String := ["jlptn5", "jlptn4", "jlptn3", "jlptn2", "jlptn1"]

/-- `jlpt_groups[category].append(kanji)`: append the record to the group
stored under `key`, leaving the other groups alone. -/
def groupsUpdate : List (String × List SplitRecord) → String → SplitRecord →
    List (String × List SplitRecord)
  | [], _, _ => []
  | g :: gs, key, kanji =>
      (if g.1 = key then (g.1, g.2 ++ [kanji]) else g) :: groupsUpdate gs key kanji

/-- One iteration of the grouping loop of `split_kanji_by_jlpt_level`:
lower-case the record's category (`kanji.get('category', '').lower()`) and
append the record to the matching group, if any. -/
def jlptStep (groups : List (String × List SplitRecord)) (kanji : SplitRecord) :
    List (String × List SplitRecord) :=
  let category := lowerString (kanji.category.getD "")
  if category ∈ jlpt_keys then groupsUpdate groups category kanji else groups

/-- The grouping loop of `split_kanji_by_jlpt_level`, started from the five
empty groups. -/
def jlpt_groups (kanji_list : List SplitRecord) :
    List (String × List SplitRecord) :=
  kanji_list.foldl jlptStep (jlpt_keys.map (fun key => (key, [])))

/-- The kanji dataset as the splitter reads it: the `kanji` array, with
`none` when the key is missing (in which case `data.get('kanji', [])`
substitutes `[]`). -/
structure SplitDoc where
  kanji : Option (List SplitRecord)
  deriving DecidableEq

/-- How a splitter run ends: `noOutput` models the early returns (the input
file missing or unparseable, or an empty/missing kanji array — the script
returns before creating any file), and `written` a run that reaches the
writing loop, carrying the five groups in the script's key order (each
group `(key, recs)` is dumped as `{"kanji": recs}` to its fixed file
`kanji-jlpt-nN.json`). -/
inductive SplitOutcome where
  | noOutput
  | written (groups : List (String × List SplitRecord))
  deriving DecidableEq

/-- The control flow of `split_kanji_by_jlpt_level`, as a function of the
input-file read (`none` models a read/parse failure): a failing read
returns writing nothing; so does an empty or missing kanji array
(`if not kanji_list: ... return`); otherwise the records are grouped and
the five files are written. -/
def split_kanji_by_jlpt_level (inputFile : Option SplitDoc) : SplitOutcome :=
  match inputFile with
  | none => .noOutput
  | some data =>
      let kanji_list := data.kanji.getD []
      if kanji_list.isEmpty then .noOutput
      else .written (jlpt_groups kanji_list)

/-! ### Helper lemmas about stripping -/

theorem dropWhile_dropWhile {α : Type} (p : α → Bool) (l : List α) :
    (l.dropWhile p).dropWhile p = l.dropWhile p := by
  induction l with
  | nil => rfl
  | cons x xs ih =>
      by_cases h : p x
      · simp [List.dropWhile_cons_of_pos h, ih]
      · simp [List.dropWhile_cons_of_neg h]

theorem head?_dropWhile_false {α : Type} (p : α → Bool) (l : List α) (c : α)
    (h : (l.dropWhile p).head? = some c) : p c = false := by
  have h2 := List.head?_dropWhile_not p l
  rw [h] at h2
  exact h2

theorem dropWhile_eq_self_of_head? {α : Type} (p : α → Bool) (l : List α)
    (h : ∀ c, l.head? = some c → p c = false) : l.dropWhile p = l := by
  cases l with
  | nil => rfl
  | cons x xs => exact List.dropWhile_cons_of_neg (by simp [h x rfl])

theorem stripChars_idem (l : List Char) : stripChars (stripChars l) = stripChars l := by
  unfold stripChars
  by_cases hB : (l.dropWhile Char.isWhitespace).reverse.dropWhile Char.isWhitespace = []
  · rw [hB]; rfl
  · have h1 : ((l.dropWhile Char.isWhitespace).reverse.dropWhile
          Char.isWhitespace).reverse.dropWhile Char.isWhitespace
        = ((l.dropWhile Char.isWhitespace).reverse.dropWhile Char.isWhitespace).reverse := by
      apply dropWhile_eq_self_of_head?
      intro c hc
      rw [List.head?_reverse] at hc
      have h2 : ((l.dropWhile Char.isWhitespace).reverse).getLast? = some c := by
        rw [← List.takeWhile_append_dropWhile Char.isWhitespace
              (l.dropWhile Char.isWhitespace).reverse,
            List.getLast?_append_of_ne_nil _ hB]
        exact hc
      have h3 : (l.dropWhile Char.isWhitespace).head? = some c := by
        rw [← List.getLast?_reverse]
        exact h2
      exact head?_dropWhile_false Char.isWhitespace l c h3
    rw [h1, List.reverse_reverse, dropWhile_dropWhile]

theorem pyStrip_idem (s : String) : pyStrip (pyStrip s) = pyStrip s :=
  congrArg String.mk (stripChars_idem s.data)

/-! ### Helper lemmas about association lists -/

theorem lookupAssoc_insertAssoc_self {α β : Type} [DecidableEq α]
    (m : List (α × β)) (k : α) (v : β) :
    lookupAssoc (insertAssoc m k v) k = some v := by
  induction m with
  | nil => simp [insertAssoc, lookupAssoc]
  | cons kv m ih =>
      obtain ⟨k', v'⟩ := kv
      by_cases h : k' = k
      · subst h; simp [insertAssoc, lookupAssoc]
      · simp [insertAssoc, lookupAssoc, h, ih]

theorem lookupAssoc_mem {α β : Type} [DecidableEq α]
    (m : List (α × β)) (k : α) (v : β) (h : lookupAssoc m k = some v) : (k, v) ∈ m := by
  induction m with
  | nil => simp [lookupAssoc] at h
  | cons kv m ih =>
      obtain ⟨k', v'⟩ := kv
      by_cases hk : k' = k
      · subst hk
        simp only [lookupAssoc, if_true, eq_self_iff_true, Option.some.injEq] at h
        subst h
        exact List.mem_cons_self _ _
      · simp only [lookupAssoc, if_neg hk] at h
        exact List.mem_cons_of_mem _ (ih h)

theorem mem_insertAssoc {α β : Type} [DecidableEq α]
    (m : List (α × β)) (k : α) (v : β) (p : α × β) (h : p ∈ insertAssoc m k v) :
    p = (k, v) ∨ p ∈ m := by
  induction m with
  | nil =>
      simp only [insertAssoc, List.mem_singleton] at h
      exact Or.inl h
  | cons kv m ih =>
      obtain ⟨k', v'⟩ := kv
      by_cases hk : k' = k
      · subst hk
        simp only [insertAssoc, if_true, eq_self_iff_true, List.mem_cons] at h
        rcases h with h | h
        · exact Or.inl h
        · exact Or.inr (List.mem_cons_of_mem _ h)
      · simp only [insertAssoc, if_neg hk, List.mem_cons] at h
        rcases h with h | h
        · exact Or.inr (by simp [h])
        · rcases ih h with h2 | h2
          · exact Or.inl h2
          · exact Or.inr (List.mem_cons_of_mem _ h2)

/-! ### Helper lemmas about the dictionary loader -/

theorem stripValue_ok (v : JValue) (r : String) (h : stripValue v = .ok r) :
    ∃ s, r = pyStrip s := by
  cases v with
  | jstr s =>
      refine ⟨s, ?_⟩
      simpa [stripValue] using h.symm
  | jarr l => simp [stripValue] at h

theorem definitionsLoop_strip (defs : List JValue) (acc rs : List String)
    (h : definitionsLoop defs acc = .ok rs) :
    ∀ r ∈ rs, r ∈ acc ∨ ∃ s, r = pyStrip s := by
  induction defs generalizing acc with
  | nil =>
      simp only [definitionsLoop, Except.ok.injEq] at h
      subst h
      exact fun r hr => Or.inl hr
  | cons d ds ih =>
      cases d with
      | jstr s => exact ih acc h
      | jarr elems =>
          cases elems with
          | nil => exact ih acc h
          | cons raw_reading tl =>
              by_cases ht : raw_reading.truthy
              · cases hs : stripValue raw_reading with
                | ok r' =>
                    simp only [definitionsLoop, ht, if_true, hs] at h
                    intro r hr
                    rcases ih (acc ++ [r']) h r hr with hmem | hst
                    · rcases List.mem_append.mp hmem with hmem | hmem
                      · exact Or.inl hmem
                      · right
                        rcases stripValue_ok raw_reading r' hs with ⟨s, hsv⟩
                        have hrr : r = r' := by simpa using hmem
                        exact ⟨s, hrr ▸ hsv⟩
                    · exact Or.inr hst
                | error e =>
                    simp [definitionsLoop, ht, hs] at h
              · simp only [definitionsLoop, ht, if_false] at h
                exact ih acc h

theorem loadLoop_invariant (P : ReadingMap → Prop)
    (hstep : ∀ d e d', P d → processEntry d e = .ok d' → P d')
    (entries : List (List JValue)) (d d' : ReadingMap)
    (hd : P d) (h : loadLoop d entries = .ok d') : P d' := by
  induction entries generalizing d with
  | nil =>
      simp only [loadLoop, Except.ok.injEq] at h
      exact h ▸ hd
  | cons e es ih =>
      cases he : processEntry d e with
      | ok d1 =>
          simp only [loadLoop, he] at h
          exact ih d1 (hstep d e d1 hd he) h
      | error err => simp [loadLoop, he] at h

theorem loadLoop_append (d : ReadingMap) (xs ys : List (List JValue)) (d' : ReadingMap)
    (h : loadLoop d (xs ++ ys) = .ok d') :
    ∃ d0, loadLoop d xs = .ok d0 ∧ loadLoop d0 ys = .ok d' := by
  induction xs generalizing d with
  | nil => exact ⟨d, rfl, h⟩
  | cons e es ih =>
      cases he : processEntry d e with
      | ok d1 =>
          simp only [List.cons_append, loadLoop, he] at h ⊢
          exact ih d1 h
      | error err => simp [List.cons_append, loadLoop, he] at h

theorem lookupAssoc_insertAssoc_ne {α β : Type} [DecidableEq α]
    (m : List (α × β)) (k k' : α) (v : β) (hk : k' ≠ k) :
    lookupAssoc (insertAssoc m k v) k' = lookupAssoc m k' := by
  induction m with
  | nil => simp [insertAssoc, lookupAssoc, Ne.symm hk]
  | cons kv m ih =>
      obtain ⟨k0, v0⟩ := kv
      by_cases h0 : k0 = k
      · subst h0
        simp [insertAssoc, lookupAssoc, Ne.symm hk]
      · simp [insertAssoc, lookupAssoc, h0, ih]

theorem processEntry_preserves_lookup (d d' : ReadingMap) (e : List JValue) (c : JValue)
    (h : processEntry d e = .ok d')
    (hnc : ∀ defs tl, e = c :: defs :: tl →
        ∀ rs, definitionsReadings defs = .ok rs → rs.dedup = []) :
    lookupAssoc d' c = lookupAssoc d c := by
  match e with
  | [] =>
      simp only [processEntry, Except.ok.injEq] at h
      rw [h]
  | [x] =>
      simp only [processEntry, Except.ok.injEq] at h
      rw [h]
  | ch :: defs :: tl =>
      cases hr : definitionsReadings defs with
      | ok readings =>
          simp only [processEntry, hr] at h
          by_cases hemp : readings.dedup.isEmpty
          · rw [if_pos hemp] at h
            cases h
            rfl
          · rw [if_neg hemp] at h
            cases h
            have hch : ch ≠ c := by
              intro hcc
              subst hcc
              exact hemp (by simp [hnc defs tl rfl readings hr])
            exact lookupAssoc_insertAssoc_ne d ch c readings.dedup (fun hcc => hch hcc.symm)
      | error err => simp [processEntry, hr] at h

theorem loadLoop_preserves_lookup (entries : List (List JValue)) (d d' : ReadingMap)
    (c : JValue) (h : loadLoop d entries = .ok d')
    (hnc : ∀ e ∈ entries, ∀ defs tl, e = c :: defs :: tl →
        ∀ rs, definitionsReadings defs = .ok rs → rs.dedup = []) :
    lookupAssoc d' c = lookupAssoc d c := by
  induction entries generalizing d with
  | nil =>
      simp only [loadLoop, Except.ok.injEq] at h
      rw [h]
  | cons e es ih =>
      cases he : processEntry d e with
      | ok d1 =>
          simp only [loadLoop, he] at h
          have h1 := ih d1 h (fun e2 he2 => hnc e2 (List.mem_cons_of_mem _ he2))
          have h2 := processEntry_preserves_lookup d d1 e c he
            (fun defs tl heq => hnc e (List.mem_cons_self _ _) defs tl heq)
          exact h1.trans h2
      | error err => simp [loadLoop, he] at h

/-- The property every stored reading list enjoys: non-empty, duplicate-free,
and each reading fixed by stripping (the amended C2 invariant; nothing says
the readings themselves are non-empty strings). -/
def goodReadings (rs : List String) : Prop :=
  rs ≠ [] ∧ rs.Nodup ∧ ∀ r ∈ rs, pyStrip r = r

theorem processEntry_good (d : ReadingMap) (e : List JValue) (d' : ReadingMap)
    (hd : ∀ p ∈ d, goodReadings p.2) (h : processEntry d e = .ok d') :
    ∀ p ∈ d', goodReadings p.2 := by
  match e with
  | [] =>
      simp only [processEntry, Except.ok.injEq] at h
      exact h ▸ hd
  | [x] =>
      simp only [processEntry, Except.ok.injEq] at h
      exact h ▸ hd
  | character :: definitions :: _ =>
      cases hr : definitionsReadings definitions with
      | ok readings =>
          simp only [processEntry, hr] at h
          by_cases hemp : readings.dedup.isEmpty
          · rw [if_pos hemp] at h
            cases h
            exact hd
          · rw [if_neg hemp] at h
            cases h
            intro p hp
            rcases mem_insertAssoc d character readings.dedup p hp with hnew | hold
            · subst hnew
              refine ⟨by simpa [List.isEmpty_iff] using hemp, List.nodup_dedup _, ?_⟩
              intro r hrm
              have hrm2 : r ∈ readings := (List.mem_dedup).mp hrm
              have hread : definitionsLoop (match definitions with
                  | .jstr _ => [] | .jarr defs => defs) [] = .ok readings := by
                cases definitions with
                | jstr s =>
                    simp only [definitionsReadings] at hr
                    simpa [definitionsLoop] using hr
                | jarr defs => simpa [definitionsReadings] using hr
              rcases definitionsLoop_strip _ [] readings hread r hrm2 with hfalse | ⟨s, hst⟩
              · simp at hfalse
              · rw [hst, pyStrip_idem]
            · exact hd p hold
      | error err => simp [processEntry, hr] at h

theorem load_dictionary_values (data : List (List JValue)) (dict : ReadingMap)
    (h : load_dictionary data = .ok dict) :
    ∀ p ∈ dict, goodReadings p.2 := by
  refine loadLoop_invariant (fun d => ∀ p ∈ d, goodReadings p.2)
    (fun d e d' hd he => processEntry_good d e d' hd he) data [] dict ?_ h
  intro p hp
  simp at hp

/-! ### Helper lemmas about the lookup -/

theorem get_han_viet_reading_present (dict : ReadingMap) (c : JValue) (rs : List String)
    (h : lookupAssoc dict c = some rs) (hne : rs ≠ []) :
    get_han_viet_reading c dict =
      some (String.intercalate ", " ((sortStrings rs).map upperString)) := by
  simp [get_han_viet_reading, h, List.isEmpty_iff, hne]

theorem get_han_viet_reading_absent (dict : ReadingMap) (c : JValue)
    (h : lookupAssoc dict c = none) : get_han_viet_reading c dict = none := by
  simp [get_han_viet_reading, h]

/-! ### Helper lemmas about the enricher -/

theorem enrichRecord_skip_noChar (d : ReadingMap) (r : KanjiRecord)
    (h : r.character = none) : enrichRecord d r = (r, false, false) := by
  cases hm : r.meaning <;> simp [enrichRecord, h, hm]

theorem enrichRecord_skip_falsy (d : ReadingMap) (r : KanjiRecord) (c : JValue)
    (hc : r.character = some c) (ht : c.truthy = false) :
    enrichRecord d r = (r, false, false) := by
  cases hm : r.meaning <;> simp [enrichRecord, hc, hm, ht]

theorem enrichRecord_skip_noMeaning (d : ReadingMap) (r : KanjiRecord)
    (h : r.meaning = none) : enrichRecord d r = (r, false, false) := by
  cases hc : r.character <;> simp [enrichRecord, hc, h]

theorem enrichRecord_hit (d : ReadingMap) (r : KanjiRecord) (c : JValue) (m sv : String)
    (hc : r.character = some c) (ht : c.truthy = true) (hm : r.meaning = some m)
    (hg : get_han_viet_reading c d = some sv) (hsv : sv ≠ "") :
    enrichRecord d r =
      ({ r with meaning := some (if (pyStrip m).isEmpty then sv else sv ++ ", " ++ m) }, true, false) := by
  have hsv2 : sv.isEmpty = false := by
    cases hse : sv.isEmpty
    · rfl
    · exact absurd (by simpa [String.isEmpty_iff] using hse) hsv
  simp [enrichRecord, hc, hm, ht, hg, hsv2]

theorem enrichRecord_miss (d : ReadingMap) (r : KanjiRecord) (c : JValue) (m : String)
    (hc : r.character = some c) (ht : c.truthy = true) (hm : r.meaning = some m)
    (hg : get_han_viet_reading c d = none) :
    enrichRecord d r = (r, false, true) := by
  simp [enrichRecord, hc, hm, ht, hg]

theorem enrichRecord_flags (d : ReadingMap) (r : KanjiRecord) (c : JValue) (m : String)
    (hc : r.character = some c) (ht : c.truthy = true) (hm : r.meaning = some m) :
    (enrichRecord d r).2.1 = !(enrichRecord d r).2.2 := by
  simp only [enrichRecord, hc, hm, ht, if_true]
  cases hg : get_han_viet_reading c d with
  | none => simp
  | some sv => by_cases hsv : sv.isEmpty <;> simp [hsv]

theorem enrichRecord_not_both (d : ReadingMap) (r : KanjiRecord) :
    ¬((enrichRecord d r).2.1 = true ∧ (enrichRecord d r).2.2 = true) := by
  cases hc : r.character with
  | none => rw [enrichRecord_skip_noChar d r hc]; simp
  | some c =>
      cases hm : r.meaning with
      | none => rw [enrichRecord_skip_noMeaning d r hm]; simp
      | some m =>
          cases ht : c.truthy with
          | false => rw [enrichRecord_skip_falsy d r c hc ht]; simp
          | true =>
              simp only [enrichRecord, hc, hm, ht, if_true]
              cases hg : get_han_viet_reading c d with
              | none => simp
              | some sv => by_cases hsv : sv.isEmpty <;> simp [hsv]

theorem enrichRecord_flag_present (d : ReadingMap) (r : KanjiRecord)
    (h : (enrichRecord d r).2.1 = true ∨ (enrichRecord d r).2.2 = true) :
    r.character.isSome ∧ r.meaning.isSome := by
  cases hc : r.character with
  | none => rw [enrichRecord_skip_noChar d r hc] at h; simp at h
  | some c =>
      cases hm : r.meaning with
      | none => rw [enrichRecord_skip_noMeaning d r hm] at h; simp at h
      | some m => simp [hc, hm]

theorem enrichRecord_frame (d : ReadingMap) (r : KanjiRecord) :
    (enrichRecord d r).1.character = r.character ∧ (enrichRecord d r).1.rest = r.rest := by
  cases hc : r.character with
  | none => rw [enrichRecord_skip_noChar d r hc]; exact ⟨hc, rfl⟩
  | some c =>
      cases hm : r.meaning with
      | none => rw [enrichRecord_skip_noMeaning d r hm]; exact ⟨hc, rfl⟩
      | some m =>
          cases ht : c.truthy with
          | false => rw [enrichRecord_skip_falsy d r c hc ht]; exact ⟨hc, rfl⟩
          | true =>
              simp only [enrichRecord, hc, hm, ht, if_true]
              cases hg : get_han_viet_reading c d with
              | none => exact ⟨hc, rfl⟩
              | some sv =>
                  by_cases hsv : sv.isEmpty <;> simp [hsv, hc]

theorem process_kanji_list_frame (d : ReadingMap) (l : List KanjiRecord) :
    List.Forall₂ (fun a b => a.character = b.character ∧ a.rest = b.rest)
      l (process_kanji_list d l).1 := by
  induction l with
  | nil => exact List.Forall₂.nil
  | cons r rs ih =>
      exact List.Forall₂.cons
        ⟨(enrichRecord_frame d r).1.symm, (enrichRecord_frame d r).2.symm⟩ ih

theorem process_kanji_list_counts (d : ReadingMap) (l : List KanjiRecord) :
    (process_kanji_list d l).2.1 + (process_kanji_list d l).2.2
      ≤ (l.filter (fun r => r.character.isSome && r.meaning.isSome)).length := by
  induction l with
  | nil => simp [process_kanji_list]
  | cons r rs ih =>
      simp only [process_kanji_list]
      by_cases hb : (enrichRecord d r).2.1 = true ∨ (enrichRecord d r).2.2 = true
      · have hp := enrichRecord_flag_present d r hb
        have hnb := enrichRecord_not_both d r
        rw [List.filter_cons_of_pos (by simp [hp.1, hp.2])]
        simp only [List.length_cons]
        cases h1 : (enrichRecord d r).2.1 <;> cases h2 : (enrichRecord d r).2.2 <;>
          simp [h1, h2] at hb hnb ⊢ <;> omega
      · push_neg at hb
        have h1 : (enrichRecord d r).2.1 = false := by
          cases h : (enrichRecord d r).2.1
          · rfl
          · exact absurd h hb.1
        have h2 : (enrichRecord d r).2.2 = false := by
          cases h : (enrichRecord d r).2.2
          · rfl
          · exact absurd h hb.2
        simp only [h1, h2, if_false, Bool.false_eq_true, Nat.zero_add]
        calc (process_kanji_list d rs).2.1 + (process_kanji_list d rs).2.2
            ≤ (rs.filter (fun r => r.character.isSome && r.meaning.isSome)).length := ih
          _ ≤ ((r :: rs).filter (fun r => r.character.isSome && r.meaning.isSome)).length := by
              rw [List.filter_cons]
              split <;> simp

/-! ### Helper lemmas about the splitter -/

theorem lookupAssoc_groupsUpdate (groups : List (String × List SplitRecord))
    (c key : String) (k : SplitRecord) :
    lookupAssoc (groupsUpdate groups c k) key =
      if c = key then (lookupAssoc groups key).map (fun g => g ++ [k])
      else lookupAssoc groups key := by
  induction groups with
  | nil =>
      by_cases h : c = key <;> simp [groupsUpdate, lookupAssoc, h]
  | cons g gs ih =>
      obtain ⟨k', v⟩ := g
      simp only [groupsUpdate]
      by_cases h1 : k' = c
      · subst h1
        rw [if_pos rfl]
        by_cases h2 : k' = key
        · subst h2
          simp [lookupAssoc]
        · simp [lookupAssoc, h2, ih]
      · rw [if_neg (by simpa using h1)]
        by_cases h2 : k' = key
        · subst h2
          have h3 : ¬(c = k') := fun hh => h1 hh.symm
          simp [lookupAssoc, h3]
        · simp [lookupAssoc, h1, h2, ih]

theorem jlptFold_lookup (l : List SplitRecord) (groups : List (String × List SplitRecord))
    (key : String) (hkey : key ∈ jlpt_keys) :
    lookupAssoc (l.foldl jlptStep groups) key =
      (lookupAssoc groups key).map
        (fun g => g ++ l.filter (fun k => lowerString (k.category.getD "") = key)) := by
  induction l generalizing groups with
  | nil =>
      cases h : lookupAssoc groups key <;> simp [h]
  | cons k0 ks ih =>
      simp only [List.foldl_cons]
      rw [ih (jlptStep groups k0)]
      by_cases hc : lowerString (k0.category.getD "") ∈ jlpt_keys
      · simp only [jlptStep, if_pos hc]
        rw [lookupAssoc_groupsUpdate]
        by_cases heq : lowerString (k0.category.getD "") = key
        · rw [if_pos heq, List.filter_cons_of_pos (by simp [heq])]
          cases h : lookupAssoc groups key <;> simp [h]
        · rw [if_neg heq, List.filter_cons_of_neg (by simp [heq])]
      · simp only [jlptStep, if_neg hc]
        have heq : ¬(lowerString (k0.category.getD "") = key) := fun hh => hc (hh ▸ hkey)
        rw [List.filter_cons_of_neg (by simp [heq])]

theorem groupsUpdate_keys (groups : List (String × List SplitRecord))
    (c : String) (k : SplitRecord) :
    (groupsUpdate groups c k).map Prod.fst = groups.map Prod.fst := by
  induction groups with
  | nil => rfl
  | cons g gs ih =>
      by_cases h : g.1 = c <;> simp [groupsUpdate, h] <;>
        simpa [groupsUpdate] using ih

theorem jlptFold_keys (l : List SplitRecord) (groups : List (String × List SplitRecord)) :
    (l.foldl jlptStep groups).map Prod.fst = groups.map Prod.fst := by
  induction l generalizing groups with
  | nil => rfl
  | cons k0 ks ih =>
      simp only [List.foldl_cons]
      rw [ih (jlptStep groups k0)]
      by_cases hc : lowerString (k0.category.getD "") ∈ jlpt_keys
      · simp [jlptStep, hc, groupsUpdate_keys]
      · simp [jlptStep, hc]

theorem lookupAssoc_isSome_mem {α β : Type} [DecidableEq α]
    (m : List (α × β)) (k : α) (v : β) (h : lookupAssoc m k = some v) :
    k ∈ m.map Prod.fst := by
  have := lookupAssoc_mem m k v h
  exact List.mem_map.mpr ⟨(k, v), this, rfl⟩

theorem lookupAssoc_init_jlpt (key : String) (hkey : key ∈ jlpt_keys) :
    lookupAssoc (jlpt_keys.map (fun key => (key, ([] : List SplitRecord)))) key = some [] := by
  simp only [jlpt_keys, List.mem_cons, List.not_mem_nil, or_false] at hkey
  rcases hkey with rfl | rfl | rfl | rfl | rfl <;> rfl

theorem jlpt_groups_lookup (kanji_list : List SplitRecord) (key : String)
    (hkey : key ∈ jlpt_keys) :
    lookupAssoc (jlpt_groups kanji_list) key =
      some (kanji_list.filter (fun k => lowerString (k.category.getD "") = key)) := by
  unfold jlpt_groups
  rw [jlptFold_lookup kanji_list _ key hkey, lookupAssoc_init_jlpt key hkey]
  simp

theorem jlpt_groups_lookup_key_mem (kanji_list : List SplitRecord) (key : String)
    (group : List SplitRecord)
    (h : lookupAssoc (jlpt_groups kanji_list) key = some group) : key ∈ jlpt_keys := by
  have h2 := lookupAssoc_isSome_mem _ key group h
  rw [jlpt_groups, jlptFold_keys] at h2
  simp only [List.map_map] at h2
  simpa using h2

/-! ### The claims -/

/-- C1 as stated is false: `get_han_viet_reading` sorts the stored readings
on their original form and only then upper-cases them, so for readings
`["a", "B"]` it returns `"B, A"` (code-point order puts `"B"` before
`"a"`), while sorting on the upper-cased form as the claim demands would
give `"A, B"`. -/
theorem C1_counterexample :
    load_dictionary [[.jstr "水", .jarr [.jarr [.jstr "a"], .jarr [.jstr "B"]]]]
      = .ok [(.jstr "水", ["a", "B"])] ∧
    get_han_viet_reading (.jstr "水") [(.jstr "水", ["a", "B"])] = some "B, A" ∧
    specLookupFormat ["a", "B"] = "A, B" ∧
    ("B, A" : String) ≠ "A, B" :=
  ⟨rfl, by decide, by decide, by decide⟩

/-- C1 (amended): for every ReadingMap built by `load_dictionary`, lookup of
a present character returns the comma-and-space-joined readings, sorted
lexicographically ascending on their ORIGINAL (pre-upper-casing) form and
then upper-cased; lookup of an absent character returns `none`, never an
error. -/
theorem C1_amended_lookup (data : List (List JValue)) (dict : ReadingMap)
    (h : load_dictionary data = .ok dict) (c : JValue) :
    (∀ rs, lookupAssoc dict c = some rs →
        get_han_viet_reading c dict =
          some (String.intercalate ", " ((sortStrings rs).map upperString))) ∧
    (lookupAssoc dict c = none → get_han_viet_reading c dict = none) := by
  constructor
  · intro rs hrs
    have hgood := load_dictionary_values data dict h (c, rs) (lookupAssoc_mem dict c rs hrs)
    exact get_han_viet_reading_present dict c rs hrs hgood.1
  · exact get_han_viet_reading_absent dict c

/-- C1 witness: the amended lookup theorem at a concrete loaded dictionary,
for one present and one absent character. -/
theorem C1_amended_lookup_witness :
    get_han_viet_reading (.jstr "水") [(.jstr "水", ["b", "A"])] = some "A, B" ∧
    get_han_viet_reading (.jstr "火") [(.jstr "水", ["b", "A"])] = none := by
  have h := C1_amended_lookup [[.jstr "水", .jarr [.jarr [.jstr "b"], .jarr [.jstr "A"]]]]
      [(.jstr "水", ["b", "A"])] rfl
  exact ⟨((h (.jstr "水")).1 ["b", "A"] rfl).trans (by decide), (h (.jstr "火")).2 rfl⟩

/-- C2 as stated is false: the loader tests truthiness of the RAW reading
before stripping, so a whitespace-only reading is kept and stored as the
empty string — the stored reading is not non-empty, and the character is
present although it has no (spec-)valid reading. -/
theorem C2_counterexample :
    load_dictionary [[.jstr "水", .jarr [.jarr [.jstr " "]]]] = .ok [(.jstr "水", [""])] ∧
    lookupAssoc ([(.jstr "水", [""])] : ReadingMap) (.jstr "水") = some [""] ∧
    "" ∈ ([""] : List String) ∧ String.isEmpty "" = true :=
  ⟨rfl, rfl, by simp, rfl⟩

/-- C2 (amended): entries of length less than 2 contribute nothing; every
stored reading list is duplicate-free and non-empty with each reading
whitespace-trimmed (fixed by stripping) though possibly the empty string,
because truthiness of the raw reading is checked before trimming; and an
entry whose definitions yield no candidate readings stores nothing. -/
theorem C2_amended_invariants (data : List (List JValue)) (dict : ReadingMap)
    (h : load_dictionary data = .ok dict) :
    (∀ (d : ReadingMap) (e : List JValue), e.length < 2 → processEntry d e = .ok d) ∧
    (∀ (c : JValue) (rs : List String), lookupAssoc dict c = some rs →
        rs ≠ [] ∧ rs.Nodup ∧ ∀ r ∈ rs, pyStrip r = r) ∧
    (∀ (d : ReadingMap) (c defs : JValue) (tl : List JValue),
        definitionsReadings defs = .ok [] → processEntry d (c :: defs :: tl) = .ok d) := by
  refine ⟨?_, ?_, ?_⟩
  · intro d e he
    match e with
    | [] => rfl
    | [x] => rfl
    | x :: y :: tl => simp only [List.length_cons] at he; omega
  · intro c rs hrs
    exact load_dictionary_values data dict h (c, rs) (lookupAssoc_mem dict c rs hrs)
  · intro d c defs tl hdefs
    simp [processEntry, hdefs]

/-- C2 witness: the amended invariants at a concrete dictionary whose one
reading needs trimming, plus a short entry and a readingless entry. -/
theorem C2_amended_invariants_witness :
    processEntry [] [.jstr "水"] = .ok [] ∧
    ((["a"] : List String) ≠ [] ∧ (["a"] : List String).Nodup ∧
      ∀ r ∈ (["a"] : List String), pyStrip r = r) ∧
    processEntry [] [.jstr "火", .jarr []] = .ok [] := by
  have h := C2_amended_invariants [[.jstr "水", .jarr [.jarr [.jstr " a "]]]]
      [(.jstr "水", ["a"])] rfl
  exact ⟨h.1 [] [.jstr "水"] (by decide), h.2.1 (.jstr "水") ["a"] rfl,
    h.2.2 [] (.jstr "火") (.jarr []) [] rfl⟩

/-- C8 as stated is false: a later entry for the same character that yields
zero readings does NOT overwrite: the map keeps the earlier entry's
readings, not those of the last occurrence. -/
theorem C8_counterexample :
    definitionsReadings (.jarr []) = .ok [] ∧
    load_dictionary [[.jstr "水", .jarr [.jarr [.jstr "A"]]], [.jstr "水", .jarr []]]
      = .ok [(.jstr "水", ["A"])] ∧
    lookupAssoc ([(.jstr "水", ["A"])] : ReadingMap) (.jstr "水") = some ["A"] :=
  ⟨rfl, rfl, rfl⟩

/-- C8 (amended): when the same character appears in several entries, the
map holds exactly the readings of the last entry for it that yields at
least one candidate reading — that entry overwrites whatever earlier
entries stored, with no merging, no matter what earlier entries said and no
matter what entries follow it, as long as every later occurrence of the
character yields zero readings; and, in general, an occurrence yielding
zero readings leaves the map — hence any previously stored readings —
entirely unchanged. -/
theorem C8_amended_lastWins (data1 : List (List JValue)) (c defs : JValue)
    (tl : List JValue) (data2 : List (List JValue)) (rs : List String)
    (dict : ReadingMap)
    (h : load_dictionary (data1 ++ [c :: defs :: tl] ++ data2) = .ok dict)
    (hr : definitionsReadings defs = .ok rs) (hne : rs.dedup ≠ [])
    (hafter : ∀ e ∈ data2, ∀ defs2 tl2, e = c :: defs2 :: tl2 →
        ∀ rs2, definitionsReadings defs2 = .ok rs2 → rs2.dedup = []) :
    lookupAssoc dict c = some rs.dedup ∧
    (∀ (d : ReadingMap) (c' defs' : JValue) (tl' : List JValue) (rs' : List String),
        definitionsReadings defs' = .ok rs' → rs'.dedup = [] →
        processEntry d (c' :: defs' :: tl') = .ok d) := by
  constructor
  · rcases loadLoop_append [] (data1 ++ [c :: defs :: tl]) data2 dict h with ⟨d1, h01, h2⟩
    rcases loadLoop_append [] data1 [c :: defs :: tl] d1 h01 with ⟨d0, h0, h1⟩
    have hemp : rs.dedup.isEmpty = false := by simpa [List.isEmpty_iff] using hne
    have hpe : processEntry d0 (c :: defs :: tl) = .ok (insertAssoc d0 c rs.dedup) := by
      simp only [processEntry, hr]
      rw [if_neg (by simp [hemp])]
    simp only [loadLoop, hpe] at h1
    cases h1
    rw [loadLoop_preserves_lookup data2 _ dict c h2 hafter]
    exact lookupAssoc_insertAssoc_self d0 c rs.dedup
  · intro d c' defs' tl' rs' h1 h2
    simp [processEntry, h1, h2]

/-- C8 witness: four entries — two yielding entries for `水`, then a
zero-yield occurrence of `水`, then an entry for another character: the map
holds exactly the second (last yielding) entry's readings for `水`. -/
theorem C8_amended_lastWins_witness :
    lookupAssoc [(JValue.jstr "水", ["B"]), (JValue.jstr "火", ["X"])] (.jstr "水")
      = some (["B"].dedup) := by
  refine (C8_amended_lastWins [[.jstr "水", .jarr [.jarr [.jstr "A"]]]] (.jstr "水")
    (.jarr [.jarr [.jstr "B"]]) []
    [[.jstr "水", .jarr []], [.jstr "火", .jarr [.jarr [.jstr "X"]]]] ["B"]
    [(.jstr "水", ["B"]), (.jstr "火", ["X"])] rfl rfl (by decide) ?_).1
  intro e he defs2 tl2 heq rs2 hr2
  simp only [List.mem_cons, List.not_mem_nil, or_false] at he
  rcases he with rfl | rfl
  · injection heq with h1 h2
    injection h2 with h3 h4
    subst h3
    simp only [definitionsReadings, definitionsLoop, Except.ok.injEq] at hr2
    subst hr2
    rfl
  · injection heq with h1 h2
    exact absurd h1 (by decide)

/-- C3: a record with an absent or falsy character or an absent/null meaning
is left unmodified and counted in neither counter (an empty-string meaning
is still eligible, being covered by the last two parts with `m = ""`); each
record with a truthy character and a present meaning increments exactly one
of the two counters; and over a whole run the two counters sum to at most
the number of records with character and meaning present. -/
theorem C3_counters (dictionary : ReadingMap) :
    (∀ r : KanjiRecord, r.character = none → enrichRecord dictionary r = (r, false, false)) ∧
    (∀ (r : KanjiRecord) (c : JValue), r.character = some c → c.truthy = false →
        enrichRecord dictionary r = (r, false, false)) ∧
    (∀ r : KanjiRecord, r.meaning = none → enrichRecord dictionary r = (r, false, false)) ∧
    (∀ (r : KanjiRecord) (c : JValue) (m : String),
        r.character = some c → c.truthy = true → r.meaning = some m →
        (enrichRecord dictionary r).2.1 = !(enrichRecord dictionary r).2.2) ∧
    (∀ l : List KanjiRecord,
        (process_kanji_list dictionary l).2.1 + (process_kanji_list dictionary l).2.2
          ≤ (l.filter (fun r => r.character.isSome && r.meaning.isSome)).length) :=
  ⟨fun r h => enrichRecord_skip_noChar dictionary r h,
   fun r c hc ht => enrichRecord_skip_falsy dictionary r c hc ht,
   fun r h => enrichRecord_skip_noMeaning dictionary r h,
   fun r c m hc ht hm => enrichRecord_flags dictionary r c m hc ht hm,
   fun l => process_kanji_list_counts dictionary l⟩

/-- C3 witness: the counter discipline at concrete records (missing
character, falsy character, missing meaning, and an eligible record). -/
theorem C3_counters_witness :
    enrichRecord [] ⟨none, some "x", []⟩ = (⟨none, some "x", []⟩, false, false) ∧
    enrichRecord [] ⟨some (.jstr ""), some "x", []⟩
      = (⟨some (.jstr ""), some "x", []⟩, false, false) ∧
    enrichRecord [] ⟨some (.jstr "水"), none, []⟩
      = (⟨some (.jstr "水"), none, []⟩, false, false) ∧
    (enrichRecord [] ⟨some (.jstr "水"), some "m", []⟩).2.1
      = !(enrichRecord [] ⟨some (.jstr "水"), some "m", []⟩).2.2 ∧
    (process_kanji_list [] [⟨some (.jstr "水"), some "m", []⟩]).2.1
        + (process_kanji_list [] [⟨some (.jstr "水"), some "m", []⟩]).2.2
      ≤ ([⟨some (.jstr "水"), some "m", []⟩].filter
          (fun r : KanjiRecord => r.character.isSome && r.meaning.isSome)).length := by
  have h := C3_counters []
  exact ⟨h.1 _ rfl, h.2.1 _ (.jstr "") rfl rfl, h.2.2.1 _ rfl,
    h.2.2.2.1 _ (.jstr "水") "m" rfl rfl rfl, h.2.2.2.2 _⟩

/-- C4: for an eligible record whose lookup succeeds (returns a usable,
non-empty formatted reading, the code's own success criterion), the new
meaning is the reading followed by `", "` and the original meaning when the
stripped original is non-empty, and the reading alone when the original is
empty or whitespace-only; the record counts as modified. -/
theorem C4_meaning_merge (dictionary : ReadingMap) (r : KanjiRecord) (c : JValue)
    (m sv : String) (hc : r.character = some c) (ht : c.truthy = true)
    (hm : r.meaning = some m) (hg : get_han_viet_reading c dictionary = some sv)
    (hsv : sv ≠ "") :
    ((pyStrip m ≠ "" →
        (enrichRecord dictionary r).1.meaning = some (sv ++ ", " ++ m)) ∧
     (pyStrip m = "" →
        (enrichRecord dictionary r).1.meaning = some sv)) ∧
    (enrichRecord dictionary r).2.1 = true := by
  rw [enrichRecord_hit dictionary r c m sv hc ht hm hg hsv]
  refine ⟨⟨?_, ?_⟩, rfl⟩
  · intro hne
    simp [String.isEmpty_iff, hne]
  · intro heq
    simp [String.isEmpty_iff, heq]

/-- C4 witness: Scenario A (non-empty meaning gets the `", "` separator) and
Scenario C (empty meaning takes the reading alone, no leading comma). -/
theorem C4_meaning_merge_witness :
    (enrichRecord [(.jstr "水", ["THỦY"])] ⟨some (.jstr "水"), some "water", []⟩).1.meaning
      = some "THỦY, water" ∧
    (enrichRecord [(.jstr "火", ["HỎA"])] ⟨some (.jstr "火"), some "", []⟩).1.meaning
      = some "HỎA" := by
  constructor
  · exact (C4_meaning_merge [(.jstr "水", ["THỦY"])] ⟨some (.jstr "水"), some "water", []⟩
      (.jstr "水") "water" "THỦY" rfl rfl rfl (by decide) (by decide)).1.1 (by decide)
  · exact (C4_meaning_merge [(.jstr "火", ["HỎA"])] ⟨some (.jstr "火"), some "", []⟩
      (.jstr "火") "" "HỎA" rfl rfl rfl (by decide) (by decide)).1.2 rfl

/-- C5: when the input document carries the kanji key, everything outside
the records' meaning fields passes through to the written document: the
other document-level fields, the number and order of the records, and each
record's character and remaining fields. -/
theorem C5_frame (dictionary : ReadingMap) (data : KanjiDoc) (l : List KanjiRecord)
    (h : data.kanji = some l) :
    (process_doc dictionary data).1.rest = data.rest ∧
    ∃ l', (process_doc dictionary data).1.kanji = some l' ∧
      List.Forall₂ (fun a b => a.character = b.character ∧ a.rest = b.rest) l l' := by
  refine ⟨rfl, (process_kanji_list dictionary l).1, ?_, ?_⟩
  · simp [process_doc, h]
  · exact process_kanji_list_frame dictionary l

/-- C5 witness: the frame property at a concrete document with an extra
top-level field and a record with an extra field. -/
theorem C5_frame_witness :
    (process_doc [] (⟨some [⟨some (.jstr "水"), some "water", [("onyomi", .jstr "スイ")]⟩],
        [("title", .jstr "t")]⟩ : KanjiDoc)).1.rest = [("title", .jstr "t")] ∧
    ∃ l', (process_doc [] (⟨some [⟨some (.jstr "水"), some "water", [("onyomi", .jstr "スイ")]⟩],
        [("title", .jstr "t")]⟩ : KanjiDoc)).1.kanji = some l' ∧
      List.Forall₂ (fun a b => a.character = b.character ∧ a.rest = b.rest)
        ([⟨some (.jstr "水"), some "water", [("onyomi", .jstr "スイ")]⟩] : List KanjiRecord) l' :=
  C5_frame [] _ _ rfl

/-- C6: a parsed input document with no kanji key still completes the run
and produces an output document equal to the input with the kanji key
added, mapped to the empty array, with both counters zero. -/
theorem C6_missing_kanji (ydata : List (List JValue)) (dict : ReadingMap)
    (hload : load_dictionary ydata = .ok dict) (data : KanjiDoc)
    (hk : data.kanji = none) :
    process_kanji_file (some ydata) (some data) =
      .finished (some ({ data with kanji := some [] }, 0, 0)) := by
  simp only [process_kanji_file, hload]
  simp [process_doc, hk, process_kanji_list]

/-- C6 witness: a concrete kanji-less document run with an empty dictionary
file. -/
theorem C6_missing_kanji_witness :
    process_kanji_file (some []) (some (⟨none, [("x", .jstr "y")]⟩ : KanjiDoc)) =
      .finished (some (⟨some [], [("x", .jstr "y")]⟩, 0, 0)) :=
  C6_missing_kanji [] [] rfl ⟨none, [("x", .jstr "y")]⟩ rfl

/-- C7: the transform is not idempotent: for a record with a dictionary hit
and a non-empty meaning, one pass gives `"THỦY, water"` and a second pass on
that output gives `"THỦY, THỦY, water"` — a doubled reading prefix,
different from the single-pass result. -/
theorem C7_not_idempotent :
    load_dictionary [[.jstr "水", .jarr [.jarr [.jstr "THỦY"]]]]
      = .ok [(.jstr "水", ["THỦY"])] ∧
    (process_kanji_list [(.jstr "水", ["THỦY"])] [⟨some (.jstr "水"), some "water", []⟩]).1
      = [⟨some (.jstr "水"), some "THỦY, water", []⟩] ∧
    (process_kanji_list [(.jstr "水", ["THỦY"])]
        [⟨some (.jstr "水"), some "THỦY, water", []⟩]).1
      = [⟨some (.jstr "水"), some "THỦY, THỦY, water", []⟩] ∧
    ([⟨some (.jstr "水"), some "THỦY, THỦY, water", []⟩] : List KanjiRecord)
      ≠ [⟨some (.jstr "水"), some "THỦY, water", []⟩] :=
  ⟨rfl, by decide, by decide, by decide⟩

/-- C9: a missing/unparseable dictionary file, or a load-time exception,
terminates the process with the non-zero status 1 before any downstream
work (no output is carried by a fatal exit); a failing read of the kanji
input instead returns non-fatally with no output written. -/
theorem C9_failure_semantics (kanjiFile : Option KanjiDoc) :
    (process_kanji_file none kanjiFile = .fatalExit 1 ∧ (1 : Nat) ≠ 0) ∧
    (∀ ydata, load_dictionary ydata = .error () →
        process_kanji_file (some ydata) kanjiFile = .fatalExit 1) ∧
    (∀ (ydata : List (List JValue)) (dict : ReadingMap),
        load_dictionary ydata = .ok dict →
        process_kanji_file (some ydata) none = .finished none) := by
  refine ⟨⟨rfl, by decide⟩, ?_, ?_⟩
  · intro ydata h
    simp [process_kanji_file, h]
  · intro ydata dict h
    simp [process_kanji_file, h]

/-- C9 witness: the three failure shapes at concrete inputs (no dictionary
file; a dictionary whose truthy non-string reading raises during load; a
good dictionary but unreadable kanji input). -/
theorem C9_failure_semantics_witness :
    process_kanji_file none none = .fatalExit 1 ∧
    process_kanji_file (some [[.jstr "c", .jarr [.jarr [.jarr [.jstr "x"]]]]]) none
      = .fatalExit 1 ∧
    process_kanji_file (some []) none = .finished none :=
  ⟨(C9_failure_semantics none).1.1,
   (C9_failure_semantics none).2.1 _ rfl,
   (C9_failure_semantics none).2.2 [] [] rfl⟩

/-- C10 as stated is false: on a parseable dataset whose kanji array is
empty (or whose kanji key is missing), `if not kanji_list: ... return`
fires and the script returns before the writing loop, producing no output
files at all — not the five files the claim requires for every parseable
dataset. -/
theorem C10_counterexample :
    split_kanji_by_jlpt_level (some ⟨some []⟩) = .noOutput ∧
    split_kanji_by_jlpt_level (some ⟨none⟩) = .noOutput ∧
    SplitOutcome.noOutput ≠ .written (jlpt_groups []) :=
  ⟨rfl, rfl, by decide⟩

/-- C10 (amended): for every parseable dataset whose kanji array is present
and non-empty, the run writes the five files keyed jlptn5..jlptn1, each
holding exactly the input records whose category matches that key
case-insensitively, in original input order, and a record whose category
matches none of the keys appears in no file; a dataset whose kanji array is
empty or missing makes the run return early, writing no output files. -/
theorem C10_amended_split (data : SplitDoc) (l : List SplitRecord)
    (h : data.kanji = some l) (hne : l ≠ []) :
    split_kanji_by_jlpt_level (some data) = .written (jlpt_groups l) ∧
    (∀ key, key ∈ jlpt_keys →
        lookupAssoc (jlpt_groups l) key =
          some (l.filter (fun k => lowerString (k.category.getD "") = key))) ∧
    (∀ k : SplitRecord, lowerString (k.category.getD "") ∉ jlpt_keys →
        ∀ key group, lookupAssoc (jlpt_groups l) key = some group →
          k ∉ group) ∧
    (∀ data2 : SplitDoc, data2.kanji.getD [] = [] →
        split_kanji_by_jlpt_level (some data2) = .noOutput) := by
  refine ⟨?_, ?_, ?_, ?_⟩
  · simp [split_kanji_by_jlpt_level, h, List.isEmpty_iff, hne]
  · exact fun key hkey => jlpt_groups_lookup l key hkey
  · intro k hk key group hg hmem
    have hkey := jlpt_groups_lookup_key_mem l key group hg
    rw [jlpt_groups_lookup l key hkey] at hg
    cases hg
    have heq : lowerString (k.category.getD "") = key :=
      of_decide_eq_true (List.mem_filter.mp hmem).2
    rw [← heq] at hkey
    exact hk hkey
  · intro data2 h2
    simp [split_kanji_by_jlpt_level, h2]

/-- C10 witness: Scenario D — categories `"JLPTN5"`, `"jlptn3"`, `"unknown"`
on a non-empty dataset: the run writes the groups, the jlptn5 group holds
exactly the first record, the unknown-category record is in no group
(checked for the jlptn5 group), and the empty-array dataset writes
nothing. -/
theorem C10_amended_split_witness :
    split_kanji_by_jlpt_level (some ⟨some [⟨some "JLPTN5", []⟩, ⟨some "jlptn3", []⟩,
        ⟨some "unknown", []⟩]⟩)
      = .written (jlpt_groups [⟨some "JLPTN5", []⟩, ⟨some "jlptn3", []⟩,
          ⟨some "unknown", []⟩]) ∧
    lookupAssoc (jlpt_groups [⟨some "JLPTN5", []⟩, ⟨some "jlptn3", []⟩,
        ⟨some "unknown", []⟩]) "jlptn5" = some [⟨some "JLPTN5", []⟩] ∧
    (⟨some "unknown", []⟩ : SplitRecord) ∉ ([⟨some "JLPTN5", []⟩] : List SplitRecord) ∧
    split_kanji_by_jlpt_level (some ⟨some []⟩) = .noOutput := by
  have h := C10_amended_split ⟨some [⟨some "JLPTN5", []⟩, ⟨some "jlptn3", []⟩,
      ⟨some "unknown", []⟩]⟩ [⟨some "JLPTN5", []⟩, ⟨some "jlptn3", []⟩,
      ⟨some "unknown", []⟩] rfl (by decide)
  have h5 : lookupAssoc (jlpt_groups [⟨some "JLPTN5", []⟩, ⟨some "jlptn3", []⟩,
      ⟨some "unknown", []⟩]) "jlptn5" = some [⟨some "JLPTN5", []⟩] :=
    (h.2.1 "jlptn5" (by decide)).trans (by decide)
  exact ⟨h.1, h5, h.2.2.1 ⟨some "unknown", []⟩ (by decide) "jlptn5" _ h5,
    h.2.2.2 ⟨some []⟩ rfl⟩

end VnKanji
